import Mathlib

/-!
Verification of the Steam matchmaker Library Matching Engine.

Shallow embedding of `frontend/js/matching.js` (class `GameMatcher`) and the
AI-recommendation request/response glue of the application controller.
JavaScript numbers carrying playtimes are modelled as `Int` (negative values
are representable); `appid` values as `Nat`; strings as `List Char`.
JS `Set`/`Map` insertion-order semantics are modelled by first-occurrence
deduplicated lists and association lists.
-/

/-- A single owned game, as delivered by the profile resolver.
Field names follow the source (`appid`, `name`, `playtime_forever`). -/
structure Game where
  appid : Nat
  name : List Char
  playtime_forever : Int
deriving DecidableEq, Repr

/-- A friend record: display name plus the owned-games library. -/
structure Friend where
  name : List Char
  games : List Game
deriving DecidableEq, Repr

/-- First-occurrence deduplication with an explicit seen-set accumulator:
this is the iteration order of a JS `Set` built by successive insertions. -/
def dedupFirstAux {α : Type} [DecidableEq α] (seen : List α) : List α → List α
  | [] => []
  | a :: l => if a ∈ seen then dedupFirstAux seen l
              else a :: dedupFirstAux (a :: seen) l

/-- First-occurrence order deduplication (JS `Set` insertion order). -/
def dedupFirst {α : Type} [DecidableEq α] (l : List α) : List α :=
  dedupFirstAux [] l

/-- Insert an element into a list sorted by non-increasing `key`, after all
elements whose key is ≥ its own.  This realises the placement a stable
JS `Array.prototype.sort` with comparator `(a,b) => key b - key a` gives. -/
def insDesc {α : Type} (key : α → Int) (g : α) : List α → List α
  | [] => [g]
  | h :: t => if key h < key g then g :: h :: t else h :: insDesc key g t

/-- Stable descending sort by `key`: the model of
`array.sort((a,b) => key(b) - key(a))` (stable per the ECMAScript spec). -/
def sortDesc {α : Type} (key : α → Int) (l : List α) : List α :=
  l.foldl (fun acc g => insDesc key g acc) []

/-- Result record of `findCommonGames`.  The single-friend branch of the JS
code returns the raw game objects, on which `totalPlaytime`,
`averagePlaytime` and `ownerCount` are absent (`undefined`); absence is
modelled by `none`. -/
structure CommonGame extends Game where
  totalPlaytime : Option Int
  averagePlaytime : Option Int
  ownerCount : Option Nat
deriving DecidableEq, Repr

/-- Model of `Math.round(t / n)` for an integer `t` and positive integer `n`:
JavaScript rounds half toward +∞, i.e. `⌊t/n + 1/2⌋ = ⌊(2t+n)/(2n)⌋`. -/
def jsRound (t : Int) (n : Nat) : Int :=
  Int.fdiv (2 * t + n) (2 * n)

/-- The appids of a friend's library, in library order. -/
def ownedAppIds (f : Friend) : List Nat := f.games.map (·.appid)

/-- Model of `new Map(games.map(g => [g.appid, g])).get(a)`: the Map is built by
successive insertion, so a later entry overwrites an earlier one with the
same appid — the lookup returns the LAST game carrying `a`. -/
def lastGameWith (gs : List Game) (a : Nat) : Option Game :=
  gs.reverse.find? (fun g => g.appid == a)

/-- Model of `friend.games.find(g => g.appid === appId)`: first occurrence. -/
def firstGameWith (gs : List Game) (a : Nat) : Option Game :=
  gs.find? (fun g => g.appid == a)

/-- Model of the reduce `(sum, f) => sum + (friendGame ? friendGame.playtime_forever : 0)`
for a fixed appid `a` (matching.js lines 32–35). -/
def totalPlaytimeFor (friends : List Friend) (a : Nat) : Int :=
  friends.foldl
    (fun sum f =>
      match firstGameWith f.games a with
      | some g => sum + g.playtime_forever
      | none => sum) 0

/-- The common appids of matching.js lines 17–24: the first friend's appid
set (insertion order), filtered to ids every friend's set contains. -/
def commonAppIds (friends : List Friend) : List Nat :=
  match friends with
  | [] => []
  | f0 :: _ =>
    (dedupFirst (ownedAppIds f0)).filter
      (fun a => friends.all (fun f => a ∈ ownedAppIds f))

/-- Wrap one common appid as matching.js lines 30–43 do: game data from the
first friend's library map, playtime totals over all friends. -/
def mkCommonGame (friends : List Friend) (f0 : Friend) (a : Nat) : CommonGame :=
  let game := (lastGameWith f0.games a).getD ⟨0, [], 0⟩
  let total := totalPlaytimeFor friends a
  { toGame := game
    totalPlaytime := some total
    averagePlaytime := some (jsRound total friends.length)
    ownerCount := some friends.length }

/-- The pre-sort result list of `findCommonGames` for ≥ 2 friends, in
first-friend encounter order. -/
def commonGamesUnsorted (friends : List Friend) : List CommonGame :=
  match friends with
  | [] => []
  | f0 :: _ => (commonAppIds friends).map (mkCommonGame friends f0)

/-- The sort key of matching.js line 46: `b.totalPlaytime - a.totalPlaytime`. -/
def keyTP (r : CommonGame) : Int := r.totalPlaytime.getD 0

/-- Embedding of `GameMatcher.findCommonGames` (matching.js lines 12–47). -/
def findCommonGames : List Friend → List CommonGame
  | [] => []
  | [f] => f.games.map (fun g =>
      { toGame := g, totalPlaytime := none, averagePlaytime := none,
        ownerCount := none })
  | f0 :: f1 :: rest =>
    sortDesc keyTP (commonGamesUnsorted (f0 :: f1 :: rest))

/-- Result record of `findAlmostMatchedGames`: a game plus the owner /
missing-owner name arrays, in push order. -/
structure AlmostGame extends Game where
  owners : List (List Char)
  missingOwners : List (List Char)
  ownerCount : Nat
deriving DecidableEq, Repr

/-- The owner-name array accumulated for appid `a` by the nested loops of
matching.js lines 60–71: one push of `friend.name` per occurrence of a game
with that appid, friends outer, games inner. -/
def ownersOf (friends : List Friend) (a : Nat) : List (List Char) :=
  (friends.map (fun f =>
    (f.games.filter (fun g => g.appid == a)).map (fun _ => f.name))).flatten

/-- The missing-owner names of matching.js lines 74–80: friends whose name
does not appear in the completed owner array, in friend order. -/
def missingOwnersOf (friends : List Friend) (a : Nat) : List (List Char) :=
  (friends.filter (fun f => ¬ f.name ∈ ownersOf friends a)).map (·.name)

/-- First-encounter order of distinct appids over all friends' libraries:
the key insertion order of the `gameOwnership` Map. -/
def allAppIds (friends : List Friend) : List Nat :=
  dedupFirst ((friends.map ownedAppIds).flatten)

/-- The game record stored for an appid is the first one encountered
(matching.js line 64 only stores on first sight). -/
def firstGameAnywhere (friends : List Friend) (a : Nat) : Option Game :=
  firstGameWith ((friends.map (·.games)).flatten) a

/-- Embedding of `GameMatcher.findAlmostMatchedGames` (matching.js lines 54–99).
The final comparator is `(b.playtime_forever || 0) - (a.playtime_forever || 0)`;
on integers `x || 0` only maps `0` to `0`, so the key is `playtime_forever`. -/
def findAlmostMatchedGames (friends : List Friend) : List AlmostGame :=
  if friends.length < 3 then []
  else
    sortDesc (fun r => r.playtime_forever)
      ((allAppIds friends).filterMap (fun a =>
        let owners := ownersOf friends a
        if owners.length == friends.length - 1 then
          some { toGame := (firstGameAnywhere friends a).getD ⟨0, [], 0⟩
                 owners := owners
                 missingOwners := missingOwnersOf friends a
                 ownerCount := owners.length }
        else none))

/-- Does `nee` start the list `hay`?  (Model of string prefix testing used
to define substring containment.) -/
def leadsWith : List Char → List Char → Bool
  | [], _ => true
  | _ :: _, [] => false
  | a :: as, b :: bs => a == b && leadsWith as bs

/-- Model of JS `haystack.includes(needle)`: substring containment. -/
def strIncludes (nee hay : List Char) : Bool :=
  hay.tails.any (leadsWith nee)

/-- The fixed genre → keyword table of matching.js lines 159–170, in
source (insertion) order. -/
def genreKeywords : List (List Char × List (List Char)) :=
  [("Action".toList, ["action".toList, "shooter".toList, "fps".toList,
      "combat".toList, "fight".toList, "battle".toList, "war".toList]),
   ("Adventure".toList, ["adventure".toList, "explore".toList, "quest".toList]),
   ("RPG".toList, ["rpg".toList, "role-playing".toList, "fantasy".toList,
      "dragon".toList, "sword".toList]),
   ("Strategy".toList, ["strategy".toList, "tactics".toList, "rts".toList,
      "civilization".toList, "command".toList]),
   ("Simulation".toList, ["simulator".toList, "simulation".toList,
      "tycoon".toList, "manager".toList]),
   ("Sports".toList, ["sports".toList, "football".toList, "soccer".toList,
      "basketball".toList, "racing".toList, "nba".toList, "fifa".toList]),
   ("Puzzle".toList, ["puzzle".toList, "tetris".toList, "match".toList]),
   ("Horror".toList, ["horror".toList, "scary".toList, "zombie".toList,
      "dead".toList, "evil".toList]),
   ("Multiplayer".toList, ["multiplayer".toList, "online".toList,
      "coop".toList, "co-op".toList, "versus".toList]),
   ("Indie".toList, ["indie".toList])]

/-- Embedding of `GameMatcher.inferGenresFromName` (matching.js lines 157–179).  Note:
the function itself performs case-SENSITIVE `includes` checks; its caller
lowercases the name first (line 123). -/
def inferGenresFromName (name : List Char) : List (List Char) :=
  (genreKeywords.filter (fun p => p.2.any (fun w => strIncludes w name))).map
    (·.1)

/-- ASCII lowercasing of a name, the model of `name.toLowerCase()`. -/
def lowerStr (s : List Char) : List Char := s.map Char.toLower

/-- Optional per-game details (the `gameDetails` Map parameter): appid to
the list of `genre.description` strings. -/
structure GameDetails where
  genres : List (List Char)
deriving DecidableEq, Repr

/-- Model of the `gameDetails.has(appid)` / `.get(appid)` lookup on the optional Map. -/
def detailGenres (details : Option (List (Nat × GameDetails))) (a : Nat) :
    List (List Char) :=
  match details with
  | none => []
  | some m =>
    match m.find? (fun p => p.1 == a) with
    | some p => p.2.genres
    | none => []

/-- The genre set one friend reaches (matching.js lines 111–126): per game,
detail genres first, then genres inferred from the lowercased name; the JS
`Set` keeps first-occurrence order. -/
def friendGenres (details : Option (List (Nat × GameDetails)))
    (f : Friend) : List (List Char) :=
  dedupFirst ((f.games.map (fun g =>
    detailGenres details g.appid ++ inferGenresFromName (lowerStr g.name))).flatten)

/-- Per-genre accumulator of the `genreCounts` Map: running count and the
insertion-ordered set of participating friend names. -/
structure GenreData where
  count : Nat
  friends : List (List Char)
deriving DecidableEq, Repr

/-- Model of JS `Set.prototype.add`: append unless already present. -/
def setAdd {α : Type} [DecidableEq α] (s : List α) (a : α) : List α :=
  if a ∈ s then s else s ++ [a]

/-- One `genreCounts` update (matching.js lines 129–136): bump the entry for
`g` in place, or append a fresh entry keyed `g` at the end (JS Maps keep
insertion order and unique keys). -/
def updateGenre (nm g : List Char) :
    List (List Char × GenreData) → List (List Char × GenreData)
  | [] => [(g, ⟨1, [nm]⟩)]
  | p :: rest =>
    if p.1 = g then (p.1, ⟨p.2.count + 1, setAdd p.2.friends nm⟩) :: rest
    else p :: updateGenre nm g rest

/-- Process one friend: fold their genre set into the Map. -/
def processFriend (details : Option (List (Nat × GameDetails)))
    (st : List (List Char × GenreData)) (f : Friend) :
    List (List Char × GenreData) :=
  (friendGenres details f).foldl (fun st g => updateGenre f.name g st) st

/-- The fully accumulated `genreCounts` Map (matching.js lines 108–137). -/
def genreCountsOf (friends : List Friend)
    (details : Option (List (Nat × GameDetails))) :
    List (List Char × GenreData) :=
  friends.foldl (processFriend details) []

/-- Output record of `analyzeSharedGenres`. -/
structure SharedGenre where
  genre : List Char
  count : Nat
  friends : List (List Char)
deriving DecidableEq, Repr

/-- Embedding of `GameMatcher.analyzeSharedGenres` (matching.js lines 107–152): keep the
genres whose friend set covers every friend, then stable-sort by
descending `count` (comparator `b.count - a.count`). -/
def analyzeSharedGenres (friends : List Friend)
    (details : Option (List (Nat × GameDetails)) := none) :
    List SharedGenre :=
  sortDesc (fun s => (s.count : Int))
    ((genreCountsOf friends details).filterMap (fun p =>
      if p.2.friends.length == friends.length then
        some ⟨p.1, p.2.count, p.2.friends⟩
      else none))

/-- A raw recommendation entry as returned by the AI backend (snake_case
`player_count` field). -/
structure RawRec where
  name : List Char
  price : List Char
  overview : List Char
  reason : List Char
  player_count : List Char
  tags : List (List Char)
deriving DecidableEq, Repr

/-- A normalized recommendation for presentation (camelCase `playerCount`). -/
structure RecommendationResult where
  name : List Char
  price : List Char
  overview : List Char
  reason : List Char
  playerCount : List Char
  tags : List (List Char)
deriving DecidableEq, Repr

/-- The snake_case → camelCase normalization of app.js
(`handleGetAIRecommendations`, lines 354–361): one output per entry. -/
def normalizeRecs (recs : List RawRec) : List RecommendationResult :=
  recs.map (fun rec =>
    ⟨rec.name, rec.price, rec.overview, rec.reason, rec.player_count, rec.tags⟩)

/-- Response handling of app.js lines 349–361: a `success: false` payload
raises the carried error, a successful one is normalized. -/
def handleAIResponse (success : Bool) (error : List Char)
    (recs : List RawRec) : Except (List Char) (List RecommendationResult) :=
  if success = false then Except.error error
  else Except.ok (normalizeRecs recs)

/-- The outbound recommendation request body (app.js lines 336–340). -/
structure RecommendationRequest where
  common_games : List (List Char)
  shared_genres : List (List Char)
  friend_names : List (List Char)
deriving DecidableEq, Repr

/-- Request assembly of app.js lines 326–340: `slice(0, 10)` /
`slice(0, 5)` caps on the stored matcher outputs, then name extraction. -/
def buildRecommendationRequest (friends : List Friend)
    (lastCommonGames : List CommonGame) (lastSharedGenres : List SharedGenre) :
    RecommendationRequest :=
  { common_games := (lastCommonGames.take 10).map (·.name)
    shared_genres := (lastSharedGenres.take 5).map (·.genre)
    friend_names := friends.map (·.name) }

/-- Association-list lookup in the `genreCounts` Map model (first entry
with the key; keys are unique by construction). -/
def lookupGenre (st : List (List Char × GenreData)) (g : List Char) :
    Option GenreData :=
  (st.find? (fun p => p.1 == g)).map (·.2)

/-- The effect one participating friend has on a genre entry: bump the
count and add the name, or create a fresh entry. -/
def bumpData (acc : Option GenreData) (nm : List Char) : GenreData :=
  match acc with
  | some d => ⟨d.count + 1, setAdd d.friends nm⟩
  | none => ⟨1, [nm]⟩

/-- Folding a sequence of participating friends into one genre entry. -/
def ownersFoldOpt (fs : List Friend) (init : Option GenreData) :
    Option GenreData :=
  fs.foldl (fun acc f => some (bumpData acc f.name)) init

/-- The playtime a single friend contributes to a common game: the first
matching library entry's raw value, `0` when the friend lacks the game. -/
def playtimeContrib (a : Nat) (f : Friend) : Int :=
  match firstGameWith f.games a with
  | some g => g.playtime_forever
  | none => 0

/-- Genre inference as `analyzeSharedGenres` actually invokes it
(matching.js lines 123–124): the name is lowercased first. -/
def genresOfName (s : List Char) : List (List Char) :=
  inferGenresFromName (lowerStr s)

/-- The union of all friends' libraries, as a first-occurrence
deduplicated list of game records. -/
def unionLibrary (friends : List Friend) : List Game :=
  dedupFirst ((friends.map (·.games)).flatten)

/-- All genre tags one game reaches: detail genres plus the tags inferred
from its lowercased name — the same per-game tagging `analyzeSharedGenres`
uses. -/
def gameTags (details : Option (List (Nat × GameDetails))) (g : Game) :
    List (List Char) :=
  detailGenres details g.appid ++ inferGenresFromName (lowerStr g.name)

/-- Stated after the spec's words, for comparison with the implementation:
"count: number of *games* (not friends) tagged with this genre across the
union of libraries". -/
def specGameLevelCount (friends : List Friend)
    (details : Option (List (Nat × GameDetails))) (genre : List Char) : Nat :=
  ((unionLibrary friends).filter (fun g => genre ∈ gameTags details g)).length

/-! ## Generic lemmas: first-occurrence dedup and stable descending sort -/

theorem mem_dedupFirstAux {α : Type} [DecidableEq α] (x : α) :
    ∀ (l seen : List α), x ∈ dedupFirstAux seen l ↔ x ∈ l ∧ x ∉ seen := by
  intro l
  induction l with
  | nil => simp [dedupFirstAux]
  | cons a t ih =>
    intro seen
    by_cases ha : a ∈ seen
    · simp only [dedupFirstAux, if_pos ha, ih]
      constructor
      · rintro ⟨hx, hs⟩
        exact ⟨List.mem_cons_of_mem _ hx, hs⟩
      · rintro ⟨hx, hs⟩
        rcases List.mem_cons.mp hx with rfl | hx
        · exact absurd ha hs
        · exact ⟨hx, hs⟩
    · simp only [dedupFirstAux, if_neg ha, List.mem_cons, ih]
      constructor
      · rintro (rfl | ⟨hx, hs⟩)
        · exact ⟨Or.inl rfl, ha⟩
        · refine ⟨Or.inr hx, fun hc => hs (Or.inr hc)⟩
      · rintro ⟨rfl | hx, hs⟩
        · exact Or.inl rfl
        · by_cases hxa : x = a
          · exact Or.inl hxa
          · exact Or.inr ⟨hx, by simp [hxa, hs]⟩

theorem mem_dedupFirst {α : Type} [DecidableEq α] {x : α} {l : List α} :
    x ∈ dedupFirst l ↔ x ∈ l := by
  simp [dedupFirst, mem_dedupFirstAux]

theorem nodup_dedupFirstAux {α : Type} [DecidableEq α] :
    ∀ (l seen : List α), (dedupFirstAux seen l).Nodup := by
  intro l
  induction l with
  | nil => intro seen; simp [dedupFirstAux]
  | cons a t ih =>
    intro seen
    by_cases ha : a ∈ seen
    · simpa [dedupFirstAux, if_pos ha] using ih seen
    · simp only [dedupFirstAux, if_neg ha]
      refine List.Nodup.cons ?_ (ih (a :: seen))
      intro hc
      exact ((mem_dedupFirstAux a t (a :: seen)).mp hc).2 (List.mem_cons_self a seen)

theorem nodup_dedupFirst {α : Type} [DecidableEq α] (l : List α) :
    (dedupFirst l).Nodup :=
  nodup_dedupFirstAux l []

theorem mem_insDesc {α : Type} (key : α → Int) (g x : α) :
    ∀ l : List α, x ∈ insDesc key g l ↔ x = g ∨ x ∈ l := by
  intro l
  induction l with
  | nil => simp [insDesc]
  | cons h t ih =>
    by_cases hk : key h < key g
    · simp [insDesc, if_pos hk]
    · simp only [insDesc, if_neg hk, List.mem_cons, ih]
      tauto

theorem mem_sortDesc {α : Type} (key : α → Int) (x : α) (l : List α) :
    x ∈ sortDesc key l ↔ x ∈ l := by
  suffices h : ∀ (l acc : List α), x ∈ l.foldl (fun acc g => insDesc key g acc) acc
      ↔ x ∈ acc ∨ x ∈ l by
    simpa [sortDesc] using h l []
  intro l
  induction l with
  | nil => simp
  | cons a t ih =>
    intro acc
    simp only [List.foldl_cons, ih, mem_insDesc, List.mem_cons]
    tauto

theorem pairwise_insDesc {α : Type} (key : α → Int) (g : α) :
    ∀ l : List α, l.Pairwise (fun a b => key b ≤ key a) →
      (insDesc key g l).Pairwise (fun a b => key b ≤ key a) := by
  intro l
  induction l with
  | nil => simp [insDesc]
  | cons h t ih =>
    intro hp
    rcases List.pairwise_cons.mp hp with ⟨hh, ht⟩
    by_cases hk : key h < key g
    · rw [insDesc, if_pos hk]
      refine List.pairwise_cons.mpr ⟨?_, hp⟩
      intro b hb
      rcases List.mem_cons.mp hb with rfl | hb
      · exact le_of_lt hk
      · exact le_trans (hh b hb) (le_of_lt hk)
    · rw [insDesc, if_neg hk]
      refine List.pairwise_cons.mpr ⟨?_, ih ht⟩
      intro b hb
      rcases (mem_insDesc key g b t).mp hb with rfl | hb
      · exact not_lt.mp hk
      · exact hh b hb

theorem pairwise_sortDesc {α : Type} (key : α → Int) (l : List α) :
    (sortDesc key l).Pairwise (fun a b => key b ≤ key a) := by
  suffices h : ∀ (l acc : List α), acc.Pairwise (fun a b => key b ≤ key a) →
      (l.foldl (fun acc g => insDesc key g acc) acc).Pairwise
        (fun a b => key b ≤ key a) by
    exact h l [] (List.Pairwise.nil)
  intro l
  induction l with
  | nil => intro acc h; simpa using h
  | cons a t ih =>
    intro acc h
    exact ih (insDesc key a acc) (pairwise_insDesc key a acc h)

theorem filter_insDesc {α : Type} (key : α → Int) (g : α) (v : Int) :
    ∀ l : List α, l.Pairwise (fun a b => key b ≤ key a) →
      (insDesc key g l).filter (fun x => key x == v)
        = l.filter (fun x => key x == v) ++ (if key g = v then [g] else []) := by
  intro l
  induction l with
  | nil => by_cases hv : key g = v <;> simp [insDesc, hv]
  | cons h t ih =>
    intro hp
    rcases List.pairwise_cons.mp hp with ⟨hh, ht⟩
    by_cases hk : key h < key g
    · -- `g` is placed in front; every element of `h :: t` has key < key g
      rw [insDesc, if_pos hk]
      by_cases hv : key g = v
      · have hfil : (h :: t).filter (fun x => key x == v) = [] := by
          rw [List.filter_eq_nil_iff]
          intro x hx
          have hxle : key x ≤ key h := by
            rcases List.mem_cons.mp hx with rfl | hx
            · exact le_refl _
            · exact hh x hx
          have : key x < v := lt_of_le_of_lt hxle (hv ▸ hk)
          simp [ne_of_lt this]
        simp [hfil, hv]
      · have hgv : (key g == v) = false := by simp [hv]
        simp [List.filter_cons, hgv, hv]
    · rw [insDesc, if_neg hk]
      by_cases hhv : key h = v
      · simp [List.filter_cons, hhv, ih ht]
      · have : (key h == v) = false := by simp [hhv]
        simp [List.filter_cons, this, ih ht]

theorem filter_sortDesc {α : Type} (key : α → Int) (v : Int) (l : List α) :
    (sortDesc key l).filter (fun x => key x == v)
      = l.filter (fun x => key x == v) := by
  suffices h : ∀ (l acc : List α), acc.Pairwise (fun a b => key b ≤ key a) →
      (l.foldl (fun acc g => insDesc key g acc) acc).filter (fun x => key x == v)
        = acc.filter (fun x => key x == v) ++ l.filter (fun x => key x == v) by
    simpa [sortDesc] using h l [] List.Pairwise.nil
  intro l
  induction l with
  | nil => intro acc h; simp
  | cons a t ih =>
    intro acc h
    rw [List.foldl_cons, ih (insDesc key a acc) (pairwise_insDesc key a acc h),
      filter_insDesc key a v acc h, List.filter_cons]
    by_cases hv : key a = v
    · simp [hv]
    · have : (key a == v) = false := by simp [hv]
      simp [this, hv]

/-! ## Claims about the 0- and 1-friend branches of `findCommonGames` (C2) -/

/-- C2, counterexample: on a single friend owning one game with 5 minutes of
playtime, `findCommonGames` returns the raw game record.  The wrapper fields
are absent (`none`), not `ownerCount = 1` and
`totalPlaytime = averagePlaytime = 5` as the claim states. -/
theorem findCommonGames_single_not_wrapped :
    (findCommonGames [⟨"A".toList, [⟨1, "x".toList, 5⟩]⟩]).map
        (fun r => (r.ownerCount, r.totalPlaytime, r.averagePlaytime))
      = [(none, none, none)]
    ∧ [((none : Option Nat), (none : Option Int), (none : Option Int))]
        ≠ [(some 1, some 5, some 5)] := by
  constructor
  · decide
  · decide

/-- C2, amended: for the empty friend list `findCommonGames` returns the
empty sequence, and for a singleton list it returns that friend's full
library as raw game records — the games are passed through unchanged and the
`ownerCount` / `totalPlaytime` / `averagePlaytime` wrapper fields are not
attached (absent, i.e. `none`). -/
theorem findCommonGames_zero_one_friends (f : Friend) :
    findCommonGames [] = []
    ∧ (findCommonGames [f]).map (·.toGame) = f.games
    ∧ (findCommonGames [f]).map (·.ownerCount) = f.games.map (fun _ => none)
    ∧ (findCommonGames [f]).map (·.totalPlaytime) = f.games.map (fun _ => none)
    ∧ (findCommonGames [f]).map (·.averagePlaytime)
        = f.games.map (fun _ => none) := by
  refine ⟨rfl, ?_, ?_, ?_, ?_⟩
  · show List.map _ (f.games.map _) = _
    rw [List.map_map]
    exact List.map_id f.games
  all_goals
    show List.map _ (f.games.map _) = _
    rw [List.map_map]
    exact List.map_congr_left (fun g _ => rfl)

/-! ## Owner bookkeeping in `findAlmostMatchedGames` (C4) -/

/-- In a library whose appids are duplicate-free, the entries matching a
given appid number 1 or 0 according to membership. -/
theorem filter_appid_length {gs : List Game} {a : Nat}
    (hnd : (gs.map (·.appid)).Nodup) :
    (gs.filter (fun g => g.appid == a)).length
      = if a ∈ gs.map (·.appid) then 1 else 0 := by
  have hcnt : (gs.filter (fun g => g.appid == a)).length
      = (gs.map (·.appid)).count a := by
    rw [List.count, List.countP_map, ← List.countP_eq_length_filter]
    rfl
  rw [hcnt]
  by_cases hm : a ∈ gs.map (·.appid)
  · rw [if_pos hm]
    have h1 := List.nodup_iff_count_le_one.mp hnd a
    have h2 := List.count_pos_iff.mpr hm
    omega
  · rw [if_neg hm]
    exact List.count_eq_zero.mpr hm

/-- With duplicate-free libraries, the owner array for an appid has one
entry per owning friend. -/
theorem ownersOf_length {a : Nat} :
    ∀ {friends : List Friend}, (∀ f ∈ friends, (ownedAppIds f).Nodup) →
      (ownersOf friends a).length
        = (friends.filter (fun f => a ∈ ownedAppIds f)).length := by
  intro friends
  induction friends with
  | nil => intro _; rfl
  | cons f t ih =>
    intro hg
    have hstep : ownersOf (f :: t) a
        = (f.games.filter (fun g => g.appid == a)).map (fun _ => f.name)
          ++ ownersOf t a := by
      rw [ownersOf, List.map_cons, List.flatten_cons]
      rfl
    rw [hstep, List.length_append, List.length_map,
      filter_appid_length (hg f (List.mem_cons_self f t)),
      ih (fun f' hf' => hg f' (List.mem_cons_of_mem f hf')), List.filter_cons]
    by_cases hm : a ∈ ownedAppIds f
    · have hm' : a ∈ List.map (fun x => x.appid) f.games := hm
      rw [if_pos hm', if_pos (decide_eq_true hm), List.length_cons]
      omega
    · have hm' : ¬ a ∈ List.map (fun x => x.appid) f.games := hm
      rw [if_neg hm', if_neg (by simp [hm])]
      omega

/-- A name occurs in the owner array exactly when some friend with that
name owns the game. -/
theorem mem_ownersOf {friends : List Friend} {a : Nat} {x : List Char} :
    x ∈ ownersOf friends a
      ↔ ∃ f ∈ friends, f.name = x ∧ a ∈ ownedAppIds f := by
  simp only [ownersOf, List.mem_flatten, List.mem_map]
  constructor
  · rintro ⟨l, ⟨f, hf, rfl⟩, hx⟩
    obtain ⟨g, hgmem, rfl⟩ := List.mem_map.mp hx
    have hga := List.mem_filter.mp hgmem
    exact ⟨f, hf, rfl, List.mem_map.mpr ⟨g, hga.1, eq_of_beq hga.2⟩⟩
  · rintro ⟨f, hf, rfl, ha⟩
    obtain ⟨g, hg, hga⟩ := List.mem_map.mp ha
    exact ⟨_, ⟨f, hf, rfl⟩,
      List.mem_map.mpr ⟨g, List.mem_filter.mpr ⟨hg, by simp [hga]⟩, rfl⟩⟩

/-- Pairwise-distinct display names identify friends uniquely. -/
theorem name_inj {friends : List Friend}
    (hn : (friends.map (·.name)).Nodup) :
    ∀ f ∈ friends, ∀ f' ∈ friends, f.name = f'.name → f = f' := by
  have hp : friends.Pairwise (fun x y => x.name ≠ y.name) :=
    List.pairwise_map.mp hn
  have hsymm : Symmetric (fun (x y : Friend) => x.name ≠ y.name) :=
    fun x y h he => h he.symm
  intro f hf f' hf' heq
  by_contra hne
  exact hp.forall hsymm hf hf' hne heq

/-- Under distinct display names, a friend's name is in the owner array iff
that very friend owns the game. -/
theorem name_mem_ownersOf {friends : List Friend} {a : Nat}
    (hn : (friends.map (·.name)).Nodup) {f : Friend} (hf : f ∈ friends) :
    f.name ∈ ownersOf friends a ↔ a ∈ ownedAppIds f := by
  rw [mem_ownersOf]
  constructor
  · rintro ⟨f', hf', hname, ha⟩
    rwa [name_inj hn f' hf' f hf hname] at ha
  · intro ha
    exact ⟨f, hf, rfl, ha⟩

/-- Under distinct display names, the missing-owner array lists exactly the
friends that do not own the game. -/
theorem missingOwnersOf_length {friends : List Friend} {a : Nat}
    (hn : (friends.map (·.name)).Nodup) :
    (missingOwnersOf friends a).length
      = (friends.filter (fun f => ¬ a ∈ ownedAppIds f)).length := by
  rw [missingOwnersOf, List.length_map]
  congr 1
  refine List.filter_congr (fun f hf => ?_)
  simp only [decide_eq_decide]
  exact not_congr (name_mem_ownersOf hn hf)

/-- C4, counterexample: the size identity fails on a friend list in which
one friend's library lists the same appid twice.  With friends
A = {1, 1}, B = {2}, C = {2}, appid 1 gets the owner array [A, A] of length
`3 − 1 = 2` and passes the filter, but its missing-owner array is [B, C], so
`owners.size + missingOwners.size = 4 ≠ 3 = totalFriends`. -/
theorem findAlmostMatchedGames_sizes_counterexample :
    (findAlmostMatchedGames
        [⟨"A".toList, [⟨1, "x".toList, 0⟩, ⟨1, "x".toList, 0⟩]⟩,
         ⟨"B".toList, [⟨2, "y".toList, 0⟩]⟩,
         ⟨"C".toList, [⟨2, "y".toList, 0⟩]⟩]).map
      (fun r => (r.owners.length, r.missingOwners.length))
      = [(2, 2), (2, 1)]
    ∧ ([⟨"A".toList, [⟨1, "x".toList, 0⟩, ⟨1, "x".toList, 0⟩]⟩,
        ⟨"B".toList, [⟨2, "y".toList, 0⟩]⟩,
        ⟨"C".toList, [⟨2, "y".toList, 0⟩]⟩] : List Friend).length = 3
    ∧ 2 + 2 ≠ 3 := by
  refine ⟨?_, ?_, ?_⟩ <;> decide

/-- C4, amended: for every friend list with pairwise-distinct display names
and duplicate-free appids within each friend's library, every result of
`findAlmostMatchedGames` satisfies
`owners.size + missingOwners.size = totalFriends` and
`owners.size = totalFriends − 1`. -/
theorem findAlmostMatchedGames_owner_sizes (friends : List Friend)
    (hn : (friends.map (·.name)).Nodup)
    (hg : ∀ f ∈ friends, (ownedAppIds f).Nodup)
    (r : AlmostGame) (hr : r ∈ findAlmostMatchedGames friends) :
    r.owners.length + r.missingOwners.length = friends.length
    ∧ r.owners.length = friends.length - 1 := by
  rw [findAlmostMatchedGames] at hr
  by_cases h3 : friends.length < 3
  · rw [if_pos h3] at hr
    cases hr
  rw [if_neg h3, mem_sortDesc] at hr
  obtain ⟨a, _, hsome⟩ := List.mem_filterMap.mp hr
  simp only at hsome
  split at hsome
  next hcond =>
    have hlen : (ownersOf friends a).length = friends.length - 1 :=
      eq_of_beq hcond
    obtain rfl := Option.some.inj hsome
    refine ⟨?_, hlen⟩
    show (ownersOf friends a).length + (missingOwnersOf friends a).length
        = friends.length
    rw [ownersOf_length hg, missingOwnersOf_length hn]
    have hpart := List.length_eq_length_filter_add
      (l := friends) (fun f => decide (a ∈ ownedAppIds f))
    calc (friends.filter (fun f => a ∈ ownedAppIds f)).length
          + (friends.filter (fun f => ¬ a ∈ ownedAppIds f)).length
        = (friends.filter (fun f => decide (a ∈ ownedAppIds f))).length
          + (friends.filter
              (fun f => ! decide (a ∈ ownedAppIds f))).length := by
          congr 1
          refine congrArg _ (List.filter_congr (fun f _ => ?_))
          simp
      _ = friends.length := hpart.symm
  next => cases hsome

/-- C4, witness: the amended size identity applied to the spec's scenario
(A = {1, 2}, B = {2, 3}, C = {1, 2}); the single result, for appid 1, has
owners [A, C] and missing owner [B], so 2 + 1 = 3 and 2 = 3 − 1. -/
theorem findAlmostMatchedGames_owner_sizes_witness :
    (⟨⟨1, "P".toList, 0⟩, ["A".toList, "C".toList], ["B".toList], 2⟩ :
        AlmostGame).owners.length
      + (⟨⟨1, "P".toList, 0⟩, ["A".toList, "C".toList], ["B".toList], 2⟩ :
          AlmostGame).missingOwners.length
      = ([⟨"A".toList, [⟨1, "P".toList, 0⟩, ⟨2, "H".toList, 0⟩]⟩,
          ⟨"B".toList, [⟨2, "H".toList, 0⟩, ⟨3, "L".toList, 0⟩]⟩,
          ⟨"C".toList, [⟨1, "P".toList, 0⟩, ⟨2, "H".toList, 0⟩]⟩] :
          List Friend).length
    ∧ (⟨⟨1, "P".toList, 0⟩, ["A".toList, "C".toList], ["B".toList], 2⟩ :
        AlmostGame).owners.length
      = ([⟨"A".toList, [⟨1, "P".toList, 0⟩, ⟨2, "H".toList, 0⟩]⟩,
          ⟨"B".toList, [⟨2, "H".toList, 0⟩, ⟨3, "L".toList, 0⟩]⟩,
          ⟨"C".toList, [⟨1, "P".toList, 0⟩, ⟨2, "H".toList, 0⟩]⟩] :
          List Friend).length - 1 :=
  findAlmostMatchedGames_owner_sizes
    [⟨"A".toList, [⟨1, "P".toList, 0⟩, ⟨2, "H".toList, 0⟩]⟩,
     ⟨"B".toList, [⟨2, "H".toList, 0⟩, ⟨3, "L".toList, 0⟩]⟩,
     ⟨"C".toList, [⟨1, "P".toList, 0⟩, ⟨2, "H".toList, 0⟩]⟩]
    (by decide) (by decide)
    ⟨⟨1, "P".toList, 0⟩, ["A".toList, "C".toList], ["B".toList], 2⟩
    (by decide)

/-! ## Case sensitivity of genre inference (C7) -/

/-- C7, counterexample: `inferGenresFromName` itself is case-sensitive — the
all-caps spelling of "action" matches no keyword, while the lowercase one
matches the `Action` genre, so the function does not agree with itself on
case variants (in particular not with the lowercased input). -/
theorem inferGenresFromName_case_sensitive :
    inferGenresFromName "ACTION".toList ≠
        inferGenresFromName (lowerStr "ACTION".toList)
    ∧ inferGenresFromName "ACTION".toList = []
    ∧ inferGenresFromName "action".toList = ["Action".toList] := by
  refine ⟨?_, ?_, ?_⟩ <;> decide

/-- Lowercasing a character is idempotent (helper for C7). -/
theorem charToLower_idem (c : Char) : c.toLower.toLower = c.toLower := by
  unfold Char.toLower
  by_cases h : c.toNat ≥ 65 ∧ c.toNat ≤ 90
  · have hval : (c.toNat + 32).isValidChar := by
      unfold Nat.isValidChar
      omega
    have hc : (Char.ofNat (c.toNat + 32)).toNat = c.toNat + 32 := by
      unfold Char.ofNat
      simp only [hval, dite_true]
      unfold Char.ofNatAux
      rfl
    rw [if_pos h, if_neg (by rw [hc]; omega)]
  · rw [if_neg h, if_neg h]

/-- C7, amended: the genre-matching pipeline used by `analyzeSharedGenres`
(lowercase, then `inferGenresFromName`) is case-insensitive: two names that
agree up to letter case (equal after lowercasing) receive the same genre
tags, and lowercasing the input first does not change the result.  The bare
`inferGenresFromName` has this property only for already-lowercased input. -/
theorem genresOfName_case_insensitive (s t : List Char)
    (h : lowerStr s = lowerStr t) :
    genresOfName s = genresOfName t
    ∧ genresOfName s = genresOfName (lowerStr s) := by
  have hidem : lowerStr (lowerStr s) = lowerStr s := by
    simp only [lowerStr, List.map_map]
    exact List.map_congr_left (fun c _ => charToLower_idem c)
  exact ⟨by rw [genresOfName, genresOfName, h],
         by rw [genresOfName, genresOfName, hidem]⟩

/-- C7, witness: instantiating the case-insensitivity theorem at the
concrete pair "ACTION" / "Action". -/
theorem genresOfName_case_insensitive_witness :
    genresOfName "ACTION".toList = genresOfName "Action".toList
    ∧ genresOfName "ACTION".toList
        = genresOfName (lowerStr "ACTION".toList) :=
  genresOfName_case_insensitive "ACTION".toList "Action".toList (by decide)

/-! ## The ≥2-friends branch of `findCommonGames` (C3, C5, C6) -/

/-- If some game in `gs` has appid `a`, the library-map lookup yields a game
whose appid is `a`. -/
theorem lastGameWith_appid {gs : List Game} {a : Nat}
    (h : a ∈ gs.map (·.appid)) :
    ((lastGameWith gs a).getD ⟨0, [], 0⟩).appid = a := by
  obtain ⟨g, hg, rfl⟩ := List.mem_map.mp h
  obtain ⟨x, hx⟩ : ∃ x, lastGameWith gs g.appid = some x := by
    rw [← Option.isSome_iff_exists, lastGameWith, List.find?_isSome]
    exact ⟨g, List.mem_reverse.mpr hg, by simp⟩
  have hpx := List.find?_some hx
  rw [lastGameWith] at hx
  rw [lastGameWith, hx, Option.getD_some]
  exact eq_of_beq hpx

/-- Membership in the common-appid list: present in the first friend's
library and in every friend's library. -/
theorem mem_commonAppIds {f0 : Friend} {fs : List Friend} {a : Nat} :
    a ∈ commonAppIds (f0 :: fs)
      ↔ a ∈ ownedAppIds f0 ∧ ∀ f ∈ f0 :: fs, a ∈ ownedAppIds f := by
  simp only [commonAppIds, List.mem_filter, mem_dedupFirst, List.all_eq_true,
    decide_eq_true_eq]

/-- The wrapped record of a common appid carries that appid. -/
theorem mkCommonGame_appid {friends : List Friend} {f0 : Friend} {a : Nat}
    (h : a ∈ ownedAppIds f0) : (mkCommonGame friends f0 a).appid = a :=
  lastGameWith_appid h

/-- The appids of the pre-sort common-game list are the common appids. -/
theorem mem_appid_commonGamesUnsorted {f0 : Friend} {fs : List Friend}
    {x : Nat} :
    x ∈ (commonGamesUnsorted (f0 :: fs)).map (·.appid)
      ↔ x ∈ commonAppIds (f0 :: fs) := by
  rw [commonGamesUnsorted, List.map_map, List.mem_map]
  constructor
  · rintro ⟨a, ha, rfl⟩
    have := (mem_commonAppIds.mp ha).1
    simpa [Function.comp, mkCommonGame_appid this] using ha
  · intro hx
    exact ⟨x, hx, by
      simp [Function.comp, mkCommonGame_appid (mem_commonAppIds.mp hx).1]⟩

/-- C3: for every nonempty friend list, the appid set of the
`findCommonGames` output is exactly the intersection of the per-friend
owned-appid sets (an appid is in the output iff every friend owns it). -/
theorem findCommonGames_appid_intersection (f0 : Friend) (fs : List Friend)
    (a : Nat) :
    a ∈ (findCommonGames (f0 :: fs)).map (·.appid)
      ↔ ∀ f ∈ f0 :: fs, a ∈ ownedAppIds f := by
  match fs with
  | [] =>
    simp only [findCommonGames, List.map_map, List.mem_map, Function.comp,
      List.mem_singleton]
    constructor
    · rintro ⟨g, hg, rfl⟩
      intro f hf
      rcases hf with rfl
      exact List.mem_map.mpr ⟨g, hg, rfl⟩
    · intro h
      obtain ⟨g, hg, rfl⟩ :=
        List.mem_map.mp (h f0 rfl)
      exact ⟨g, hg, rfl⟩
  | f1 :: rest =>
    have hmem : a ∈ (findCommonGames (f0 :: f1 :: rest)).map (·.appid)
        ↔ a ∈ (commonGamesUnsorted (f0 :: f1 :: rest)).map (·.appid) := by
      rw [findCommonGames]
      constructor
      · intro h
        obtain ⟨r, hr, rfl⟩ := List.mem_map.mp h
        exact List.mem_map.mpr ⟨r, (mem_sortDesc keyTP r _).mp hr, rfl⟩
      · intro h
        obtain ⟨r, hr, rfl⟩ := List.mem_map.mp h
        exact List.mem_map.mpr ⟨r, (mem_sortDesc keyTP r _).mpr hr, rfl⟩
    rw [hmem, mem_appid_commonGamesUnsorted, mem_commonAppIds]
    constructor
    · exact fun h => h.2
    · intro h
      exact ⟨h f0 (List.mem_cons_self _ _), h⟩

/-- The playtime-summing `reduce` equals the sum of the per-friend
contributions (including negative values unchanged). -/
theorem totalPlaytimeFor_eq_sum (friends : List Friend) (a : Nat) :
    totalPlaytimeFor friends a = (friends.map (playtimeContrib a)).sum := by
  suffices h : ∀ (l : List Friend) (init : Int),
      l.foldl (fun sum f =>
        match firstGameWith f.games a with
        | some g => sum + g.playtime_forever
        | none => sum) init = init + (l.map (playtimeContrib a)).sum by
    simpa [totalPlaytimeFor] using h friends 0
  intro l
  induction l with
  | nil => simp
  | cons f t ih =>
    intro init
    rw [List.foldl_cons, ih, List.map_cons, List.sum_cons]
    cases hf : firstGameWith f.games a
    · simp [playtimeContrib, hf]
    · simp only [playtimeContrib, hf]
      ring

/-- Every pre-sort common-game record stores the full playtime sum (and
the rounded average and owner count) for its own appid. -/
theorem commonGamesUnsorted_fields {f0 : Friend} {fs : List Friend}
    {r : CommonGame} (hr : r ∈ commonGamesUnsorted (f0 :: fs)) :
    r.totalPlaytime = some (totalPlaytimeFor (f0 :: fs) r.appid)
    ∧ r.averagePlaytime
        = some (jsRound (totalPlaytimeFor (f0 :: fs) r.appid)
            (f0 :: fs).length)
    ∧ r.ownerCount = some (f0 :: fs).length := by
  rw [commonGamesUnsorted] at hr
  obtain ⟨a, ha, rfl⟩ := List.mem_map.mp hr
  have happ : (mkCommonGame (f0 :: fs) f0 a).appid = a :=
    mkCommonGame_appid (mem_commonAppIds.mp ha).1
  rw [happ]
  exact ⟨rfl, rfl, rfl⟩

/-- C5, counterexample: with two friends owning the same game, one with
playtime 10 and the other with playtime −4, `findCommonGames` reports
`totalPlaytime = 6`: the negative value is summed as-is, not treated as 0
(which would have given 10). -/
theorem negative_playtime_not_normalized :
    (findCommonGames
        [⟨"A".toList, [⟨1, "x".toList, 10⟩]⟩,
         ⟨"B".toList, [⟨1, "x".toList, -4⟩]⟩]).map (·.totalPlaytime)
      = [some 6]
    ∧ [some (6 : Int)] ≠ [some (10 : Int)] := by
  constructor
  · decide
  · decide

/-- C5, amended: the derived-computation functions are total (they are plain
functions in this model and return for every input), and `findCommonGames`
computes each `totalPlaytime` as the plain sum of the friends' stored
playtime values for that appid — a friend lacking the game contributes 0,
but negative stored values are added unchanged rather than normalized to 0;
the average is the rounded value of that same raw sum. -/
theorem findCommonGames_total_is_raw_sum (f0 f1 : Friend) (fs : List Friend)
    (r : CommonGame) (hr : r ∈ findCommonGames (f0 :: f1 :: fs)) :
    r.totalPlaytime
      = some (((f0 :: f1 :: fs).map (playtimeContrib r.appid)).sum)
    ∧ r.averagePlaytime
      = some (jsRound ((( f0 :: f1 :: fs).map (playtimeContrib r.appid)).sum)
          (f0 :: f1 :: fs).length) := by
  rw [findCommonGames, mem_sortDesc] at hr
  obtain ⟨h1, h2, _⟩ := commonGamesUnsorted_fields hr
  rw [totalPlaytimeFor_eq_sum] at h1 h2
  exact ⟨h1, h2⟩

/-- C5, witness: the amended sum characterization applied to the concrete
negative-playtime input; the reported total is 10 + (−4) = 6. -/
theorem findCommonGames_total_is_raw_sum_witness :
    ((⟨⟨1, "x".toList, 10⟩, some 6, some 3, some 2⟩ : CommonGame).totalPlaytime
        = some ((([⟨"A".toList, [⟨1, "x".toList, 10⟩]⟩,
            ⟨"B".toList, [⟨1, "x".toList, -4⟩]⟩] : List Friend).map
              (playtimeContrib 1)).sum))
    ∧ ((⟨⟨1, "x".toList, 10⟩, some 6, some 3, some 2⟩ :
          CommonGame).averagePlaytime
        = some (jsRound ((([⟨"A".toList, [⟨1, "x".toList, 10⟩]⟩,
            ⟨"B".toList, [⟨1, "x".toList, -4⟩]⟩] : List Friend).map
              (playtimeContrib 1)).sum) 2)) :=
  findCommonGames_total_is_raw_sum
    ⟨"A".toList, [⟨1, "x".toList, 10⟩]⟩ ⟨"B".toList, [⟨1, "x".toList, -4⟩]⟩ []
    ⟨⟨1, "x".toList, 10⟩, some 6, some 3, some 2⟩ (by decide)

/-- C6: for ≥ 2 friends the `findCommonGames` output is sorted by
non-increasing total playtime, and for every playtime value the sublist of
results carrying that total appears in exactly the first-encounter order of
the pre-sort list (stable tie-break), so the output is a deterministic
function of the input. -/
theorem findCommonGames_sorted_stable (f0 f1 : Friend) (fs : List Friend) :
    (findCommonGames (f0 :: f1 :: fs)).Pairwise
      (fun a b => keyTP b ≤ keyTP a)
    ∧ ∀ v : Int,
      (findCommonGames (f0 :: f1 :: fs)).filter
          (fun r => r.totalPlaytime == some v)
        = (commonGamesUnsorted (f0 :: f1 :: fs)).filter
            (fun r => r.totalPlaytime == some v) := by
  constructor
  · rw [findCommonGames]
    exact pairwise_sortDesc keyTP _
  · intro v
    have hkey : ∀ r ∈ commonGamesUnsorted (f0 :: f1 :: fs),
        (r.totalPlaytime == some v) = (keyTP r == v) := by
      intro r hr
      have := (commonGamesUnsorted_fields hr).1
      rw [this, keyTP, this]
      simp
    rw [findCommonGames]
    rw [List.filter_congr (fun r hr =>
        hkey r ((mem_sortDesc keyTP r _).mp hr)),
      List.filter_congr hkey]
    exact filter_sortDesc keyTP v _

/-! ## Response normalization (C8) -/

/-- C8: a successful AI-service payload is normalized to exactly one
`RecommendationResult` per raw entry, in order, copying `name`, `price`,
`overview`, `reason` and `tags` unchanged and renaming `player_count` to
`playerCount`. -/
theorem normalizeResponse_roundtrip (recs : List RawRec) (err : List Char) :
    handleAIResponse true err recs = Except.ok (normalizeRecs recs)
    ∧ (normalizeRecs recs).length = recs.length
    ∧ List.Forall₂ (fun (rec : RawRec) (out : RecommendationResult) =>
        out.name = rec.name ∧ out.price = rec.price
        ∧ out.overview = rec.overview ∧ out.reason = rec.reason
        ∧ out.playerCount = rec.player_count ∧ out.tags = rec.tags)
      recs (normalizeRecs recs) := by
  refine ⟨by simp [handleAIResponse], by simp [normalizeRecs], ?_⟩
  induction recs with
  | nil => exact List.Forall₂.nil
  | cons r t ih => exact List.Forall₂.cons ⟨rfl, rfl, rfl, rfl, rfl, rfl⟩ ih

/-! ## Recommendation request caps (C9) -/

/-- C9: the outbound recommendation request carries at most 10 game names
and at most 5 genre names, namely the names of the first 10 / first 5
entries of the stored `findCommonGames` / `analyzeSharedGenres` outputs in
their result order — stated for arbitrary stored lists, and instantiated on
the matcher outputs the app stores. -/
theorem recommendationRequest_caps (friends : List Friend)
    (cg : List CommonGame) (sg : List SharedGenre) :
    (buildRecommendationRequest friends cg sg).common_games.length ≤ 10
    ∧ (buildRecommendationRequest friends cg sg).shared_genres.length ≤ 5
    ∧ (buildRecommendationRequest friends cg sg).common_games
        = (cg.take 10).map (·.name)
    ∧ (buildRecommendationRequest friends cg sg).shared_genres
        = (sg.take 5).map (·.genre)
    ∧ (buildRecommendationRequest friends (findCommonGames friends)
          (analyzeSharedGenres friends none)).common_games
        = ((findCommonGames friends).take 10).map (·.name)
    ∧ (buildRecommendationRequest friends (findCommonGames friends)
          (analyzeSharedGenres friends none)).shared_genres
        = ((analyzeSharedGenres friends none).take 5).map (·.genre) := by
  refine ⟨?_, ?_, rfl, rfl, rfl, rfl⟩ <;>
    simp [buildRecommendationRequest, List.length_take]

/-! ## The `genreCounts` accumulator of `analyzeSharedGenres` (C1, C10) -/

/-- Association-list lookup at a cons cell. -/
theorem lookupGenre_cons (k : List Char) (d : GenreData)
    (rest : List (List Char × GenreData)) (g' : List Char) :
    lookupGenre ((k, d) :: rest) g'
      = if k = g' then some d else lookupGenre rest g' := by
  by_cases h : k = g'
  · rw [if_pos h, lookupGenre, List.find?_cons_of_pos _ (by simp [h]),
      Option.map_some']
  · rw [if_neg h, lookupGenre, List.find?_cons_of_neg _ (by simp [h])]
    rfl

/-- One Map update changes exactly the entry keyed `g`, bumping it as one
participating friend does. -/
theorem lookupGenre_updateGenre (nm g : List Char) :
    ∀ (st : List (List Char × GenreData)) (g' : List Char),
      lookupGenre (updateGenre nm g st) g'
        = if g' = g then some (bumpData (lookupGenre st g) nm)
          else lookupGenre st g' := by
  intro st
  induction st with
  | nil =>
    intro g'
    show lookupGenre ((g, ⟨1, [nm]⟩) :: []) g' = _
    rw [lookupGenre_cons]
    by_cases h : g' = g
    · rw [if_pos h.symm, if_pos h]
      rfl
    · rw [if_neg (fun hc => h hc.symm), if_neg h]
  | cons p rest ih =>
    intro g'
    obtain ⟨k, d⟩ := p
    by_cases hpg : k = g
    · subst hpg
      have hupd : updateGenre nm k ((k, d) :: rest)
          = (k, ⟨d.count + 1, setAdd d.friends nm⟩) :: rest := by
        simp [updateGenre]
      by_cases hg' : g' = k
      · subst hg'
        rw [hupd, lookupGenre_cons, if_pos rfl, if_pos rfl, lookupGenre_cons,
          if_pos rfl]
        rfl
      · rw [hupd, lookupGenre_cons, if_neg (fun hc => hg' hc.symm),
          if_neg hg', lookupGenre_cons, if_neg (fun hc => hg' hc.symm)]
    · by_cases hg' : g' = k
      · subst hg'
        have hupd : updateGenre nm g ((g', d) :: rest)
            = (g', d) :: updateGenre nm g rest := by
          simp [updateGenre, hpg]
        rw [hupd, lookupGenre_cons, if_pos rfl, if_neg hpg, lookupGenre_cons,
          if_pos rfl]
      · have hupd : updateGenre nm g ((k, d) :: rest)
            = (k, d) :: updateGenre nm g rest := by
          simp [updateGenre, hpg]
        rw [hupd, lookupGenre_cons, if_neg (fun hc => hg' hc.symm), ih g']
        by_cases hgg : g' = g
        · rw [if_pos hgg, if_pos hgg, lookupGenre_cons, if_neg hpg]
        · rw [if_neg hgg, if_neg hgg, lookupGenre_cons,
            if_neg (fun hc => hg' hc.symm)]

/-- Folding a duplicate-free genre list into the Map bumps each listed
genre exactly once. -/
theorem lookupGenre_foldl_update (nm : List Char) :
    ∀ (gs : List (List Char)), gs.Nodup →
      ∀ (st : List (List Char × GenreData)) (g' : List Char),
        lookupGenre (gs.foldl (fun st g => updateGenre nm g st) st) g'
          = if g' ∈ gs then some (bumpData (lookupGenre st g') nm)
            else lookupGenre st g' := by
  intro gs
  induction gs with
  | nil =>
    intro _ st g'
    simp
  | cons g t ih =>
    intro hnd st g'
    rcases List.nodup_cons.mp hnd with ⟨hgt, hndt⟩
    rw [List.foldl_cons, ih hndt]
    by_cases hg' : g' = g
    · subst hg'
      rw [if_neg hgt, lookupGenre_updateGenre, if_pos rfl,
        if_pos (List.mem_cons_self g' t)]
    · rw [lookupGenre_updateGenre, if_neg hg']
      by_cases hmem : g' ∈ t
      · rw [if_pos hmem, if_pos (List.mem_cons_of_mem g hmem)]
      · rw [if_neg hmem, if_neg (by simp [hg', hmem])]

/-- Processing one friend bumps exactly the genres in that friend's set. -/
theorem lookupGenre_processFriend
    (details : Option (List (Nat × GameDetails)))
    (st : List (List Char × GenreData)) (f : Friend) (g : List Char) :
    lookupGenre (processFriend details st f) g
      = if g ∈ friendGenres details f
        then some (bumpData (lookupGenre st g) f.name)
        else lookupGenre st g := by
  rw [processFriend]
  exact lookupGenre_foldl_update f.name (friendGenres details f)
    (nodup_dedupFirst _) st g

/-- The accumulated Map entry for a genre is the fold of the friends whose
genre set contains it, in friend order. -/
theorem lookupGenre_foldl_processFriend
    (details : Option (List (Nat × GameDetails))) (g : List Char) :
    ∀ (fs : List Friend) (st : List (List Char × GenreData)),
      lookupGenre (fs.foldl (processFriend details) st) g
        = ownersFoldOpt (fs.filter (fun f => g ∈ friendGenres details f))
            (lookupGenre st g) := by
  intro fs
  induction fs with
  | nil => intro st; rfl
  | cons f t ih =>
    intro st
    rw [List.foldl_cons, ih, lookupGenre_processFriend, List.filter_cons]
    by_cases hf : g ∈ friendGenres details f
    · rw [if_pos hf, if_pos (decide_eq_true hf)]
      rfl
    · rw [if_neg hf, if_neg (by simp [hf])]

/-- Closed form of folding participants into an existing entry. -/
theorem ownersFoldOpt_some :
    ∀ (fs : List Friend) (d : GenreData),
      ownersFoldOpt fs (some d)
        = some ⟨d.count + fs.length,
            (fs.map (·.name)).foldl setAdd d.friends⟩ := by
  intro fs
  induction fs with
  | nil => intro d; rfl
  | cons f t ih =>
    intro d
    have h1 : ownersFoldOpt (f :: t) (some d)
        = ownersFoldOpt t (some ⟨d.count + 1, setAdd d.friends f.name⟩) := rfl
    rw [h1, ih]
    have hcount : d.count + 1 + t.length = d.count + (f :: t).length := by
      rw [List.length_cons]
      omega
    rw [hcount]
    rfl

/-- Every output element of `analyzeSharedGenres` is built from a Map entry
whose friend set covers the whole friend list. -/
theorem mem_analyzeSharedGenres {friends : List Friend}
    {details : Option (List (Nat × GameDetails))} {s : SharedGenre}
    (hs : s ∈ analyzeSharedGenres friends details) :
    ∃ p ∈ genreCountsOf friends details,
      s = ⟨p.1, p.2.count, p.2.friends⟩
      ∧ p.2.friends.length = friends.length := by
  rw [analyzeSharedGenres, mem_sortDesc] at hs
  obtain ⟨p, hp, hsome⟩ := List.mem_filterMap.mp hs
  split at hsome
  next hcond =>
    obtain rfl := Option.some.inj hsome
    exact ⟨p, hp, rfl, eq_of_beq hcond⟩
  next => cases hsome

/-- Map keys after an update: the old keys, plus `g` appended if new. -/
theorem mem_keys_updateGenre (nm g : List Char) :
    ∀ (st : List (List Char × GenreData)) (x : List Char),
      x ∈ (updateGenre nm g st).map (·.1)
        ↔ x ∈ st.map (·.1) ∨ x = g := by
  intro st
  induction st with
  | nil => intro x; simp [updateGenre]
  | cons p rest ih =>
    intro x
    by_cases hpg : p.1 = g
    · simp only [updateGenre, if_pos hpg, List.map_cons, List.mem_cons]
      constructor
      · rintro (rfl | hx)
        · exact Or.inl (Or.inl rfl)
        · exact Or.inl (Or.inr hx)
      · rintro ((rfl | hx) | rfl)
        · exact Or.inl rfl
        · exact Or.inr hx
        · exact Or.inl hpg.symm
    · simp only [updateGenre, if_neg hpg, List.map_cons, List.mem_cons, ih]
      tauto

/-- Updates keep the Map keys duplicate-free. -/
theorem nodup_keys_updateGenre (nm g : List Char) :
    ∀ (st : List (List Char × GenreData)),
      (st.map (·.1)).Nodup → ((updateGenre nm g st).map (·.1)).Nodup := by
  intro st
  induction st with
  | nil => intro _; simp [updateGenre]
  | cons p rest ih =>
    intro hnd
    rcases List.nodup_cons.mp hnd with ⟨hp, hrest⟩
    by_cases hpg : p.1 = g
    · have hupd : updateGenre nm g (p :: rest)
          = (p.1, ⟨p.2.count + 1, setAdd p.2.friends nm⟩) :: rest := by
        simp [updateGenre, hpg]
      rw [hupd, List.map_cons]
      exact List.nodup_cons.mpr ⟨hp, hrest⟩
    · simp only [updateGenre, if_neg hpg, List.map_cons]
      refine List.nodup_cons.mpr ⟨?_, ih hrest⟩
      intro hc
      rcases (mem_keys_updateGenre nm g rest p.1).mp hc with hx | rfl
      · exact hp hx
      · exact hpg rfl

/-- Folded updates keep the Map keys duplicate-free. -/
theorem nodup_keys_foldl_update (nm : List Char) :
    ∀ (gs : List (List Char)) (st : List (List Char × GenreData)),
      (st.map (·.1)).Nodup →
      ((gs.foldl (fun st g => updateGenre nm g st) st).map (·.1)).Nodup := by
  intro gs
  induction gs with
  | nil => intro st h; exact h
  | cons g t ih =>
    intro st h
    exact ih (updateGenre nm g st) (nodup_keys_updateGenre nm g st h)

/-- The fully accumulated Map has duplicate-free keys. -/
theorem nodup_keys_genreCountsOf (friends : List Friend)
    (details : Option (List (Nat × GameDetails))) :
    ((genreCountsOf friends details).map (·.1)).Nodup := by
  suffices h : ∀ (fs : List Friend) (st : List (List Char × GenreData)),
      (st.map (·.1)).Nodup →
      ((fs.foldl (processFriend details) st).map (·.1)).Nodup by
    exact h friends [] (by simp)
  intro fs
  induction fs with
  | nil => intro st h; exact h
  | cons f t ih =>
    intro st h
    rw [List.foldl_cons]
    exact ih (processFriend details st f)
      (by rw [processFriend]; exact nodup_keys_foldl_update f.name _ st h)

/-- With duplicate-free keys, lookup recovers every stored entry. -/
theorem lookupGenre_of_mem :
    ∀ (st : List (List Char × GenreData)), (st.map (·.1)).Nodup →
      ∀ p ∈ st, lookupGenre st p.1 = some p.2 := by
  intro st
  induction st with
  | nil => intro _ p hp; cases hp
  | cons q rest ih =>
    intro hnd p hp
    rcases List.nodup_cons.mp hnd with ⟨hq, hrest⟩
    obtain ⟨k, d⟩ := q
    rcases List.mem_cons.mp hp with rfl | hp
    · rw [lookupGenre_cons, if_pos rfl]
    · rw [lookupGenre_cons, if_neg ?_]
      · exact ih hrest p hp
      · intro hc
        apply hq
        rw [hc]
        exact List.mem_map.mpr ⟨p, hp, rfl⟩

/-- Folding `Set.add` over a duplicate-free list disjoint from the
accumulator appends the list. -/
theorem foldl_setAdd_nodup {α : Type} [DecidableEq α] :
    ∀ (l acc : List α), l.Nodup → (∀ x ∈ l, x ∉ acc) →
      l.foldl setAdd acc = acc ++ l := by
  intro l
  induction l with
  | nil => intro acc _ _; simp
  | cons x t ih =>
    intro acc hnd hdisj
    rcases List.nodup_cons.mp hnd with ⟨hx, hndt⟩
    rw [List.foldl_cons, setAdd,
      if_neg (hdisj x (List.mem_cons_self x t)),
      ih (acc ++ [x]) hndt ?_, List.append_assoc]
    · rfl
    · intro y hy hc
      rcases List.mem_append.mp hc with hc | hc
      · exact hdisj y (List.mem_cons_of_mem x hy) hc
      · exact hx (List.mem_singleton.mp hc ▸ hy)

/-- The Map entry for a genre of at least one participating friend holds
the participant count and the deduplicated participant names. -/
theorem genreCountsOf_entry (friends : List Friend)
    (details : Option (List (Nat × GameDetails)))
    (p : List Char × GenreData) (hp : p ∈ genreCountsOf friends details) :
    p.2.count
        = (friends.filter (fun f => p.1 ∈ friendGenres details f)).length
    ∧ p.2.friends
        = ((friends.filter (fun f => p.1 ∈ friendGenres details f)).map
            (·.name)).foldl setAdd [] := by
  have hlk : lookupGenre (genreCountsOf friends details) p.1 = some p.2 :=
    lookupGenre_of_mem _ (nodup_keys_genreCountsOf friends details) p hp
  rw [genreCountsOf, lookupGenre_foldl_processFriend] at hlk
  cases howners : friends.filter (fun f => p.1 ∈ friendGenres details f) with
  | nil =>
    rw [howners] at hlk
    cases hlk
  | cons f t =>
    rw [howners] at hlk
    have h1 : ownersFoldOpt (f :: t) (lookupGenre [] p.1)
        = ownersFoldOpt t (some ⟨1, [f.name]⟩) := rfl
    rw [h1, ownersFoldOpt_some] at hlk
    have h2 : p.2 = (⟨1 + t.length, (t.map (·.name)).foldl setAdd [f.name]⟩ :
        GenreData) := (Option.some.inj hlk).symm
    rw [h2]
    constructor
    · show 1 + t.length = (f :: t).length
      rw [List.length_cons]
      omega
    · show (t.map (·.name)).foldl setAdd [f.name]
        = ((f :: t).map (·.name)).foldl setAdd []
      rw [List.map_cons, List.foldl_cons]
      simp [setAdd]

/-- C1, counterexample: one friend owning the two distinct games "war" and
"war2", both tagged `Action` by the heuristic.  `analyzeSharedGenres`
reports `count = 1` — the number of friends with the genre — while the
number of games tagged `Action` across the union of the libraries is 2. -/
theorem analyzeSharedGenres_counts_friends_not_games :
    (analyzeSharedGenres
        [⟨"A".toList, [⟨1, "war".toList, 0⟩, ⟨2, "war2".toList, 0⟩]⟩]
        none).map (fun s => (s.genre, s.count))
      = [("Action".toList, 1)]
    ∧ specGameLevelCount
        [⟨"A".toList, [⟨1, "war".toList, 0⟩, ⟨2, "war2".toList, 0⟩]⟩]
        none "Action".toList = 2
    ∧ (1 : Nat) ≠ 2 := by
  refine ⟨?_, ?_, ?_⟩ <;> decide

/-- C1, amended: every `SharedGenre` element returned by
`analyzeSharedGenres` has `count` equal to the number of *friends* in the
input list whose genre set contains that genre (one increment per friend,
not per game). -/
theorem analyzeSharedGenres_count_eq_friend_count (friends : List Friend)
    (details : Option (List (Nat × GameDetails))) (s : SharedGenre)
    (hs : s ∈ analyzeSharedGenres friends details) :
    s.count
      = (friends.filter (fun f => s.genre ∈ friendGenres details f)).length := by
  obtain ⟨p, hp, rfl, _⟩ := mem_analyzeSharedGenres hs
  exact (genreCountsOf_entry friends details p hp).1

/-- C1, witness: on the two-game counterexample input the single returned
genre `Action` has count 1, the number of friends carrying it. -/
theorem analyzeSharedGenres_count_eq_friend_count_witness :
    (⟨"Action".toList, 1, ["A".toList]⟩ : SharedGenre).count
      = (([⟨"A".toList, [⟨1, "war".toList, 0⟩, ⟨2, "war2".toList, 0⟩]⟩] :
            List Friend).filter
          (fun f => (⟨"Action".toList, 1, ["A".toList]⟩ : SharedGenre).genre
            ∈ friendGenres none f)).length :=
  analyzeSharedGenres_count_eq_friend_count
    [⟨"A".toList, [⟨1, "war".toList, 0⟩, ⟨2, "war2".toList, 0⟩]⟩] none
    ⟨"Action".toList, 1, ["A".toList]⟩ (by decide)

/-- C10: when the friends' display names are pairwise distinct, the
all-friends filter forces every returned `SharedGenre` to have
`count = friends.length`: the per-friend increments coincide with the
distinct recorded names, and only genres recorded for every friend
survive the filter. -/
theorem analyzeSharedGenres_count_eq_totalFriends (friends : List Friend)
    (details : Option (List (Nat × GameDetails)))
    (hn : (friends.map (·.name)).Nodup) (s : SharedGenre)
    (hs : s ∈ analyzeSharedGenres friends details) :
    s.count = friends.length := by
  obtain ⟨p, hp, rfl, hflen⟩ := mem_analyzeSharedGenres hs
  obtain ⟨hcount, hfr⟩ := genreCountsOf_entry friends details p hp
  set owners := friends.filter (fun f => p.1 ∈ friendGenres details f)
    with howners
  have hsub : (owners.map (·.name)).Sublist (friends.map (·.name)) :=
    (List.filter_sublist friends).map (·.name)
  have hnd : (owners.map (·.name)).Nodup := hn.sublist hsub
  have hfold : (owners.map (·.name)).foldl setAdd [] = owners.map (·.name) :=
    foldl_setAdd_nodup _ [] hnd (by simp)
  have hlen : p.2.friends.length = owners.length := by
    rw [hfr, hfold, List.length_map]
  show p.2.count = friends.length
  rw [hcount]
  rw [hlen] at hflen
  exact hflen

/-- C10, witness: two distinctly named friends, both with a game whose name
contains "war"; the single shared genre `Action` has count 2 = totalFriends. -/
theorem analyzeSharedGenres_count_eq_totalFriends_witness :
    (⟨"Action".toList, 2, ["A".toList, "B".toList]⟩ : SharedGenre).count
      = ([⟨"A".toList, [⟨1, "war".toList, 0⟩]⟩,
          ⟨"B".toList, [⟨2, "war2".toList, 0⟩]⟩] : List Friend).length :=
  analyzeSharedGenres_count_eq_totalFriends
    [⟨"A".toList, [⟨1, "war".toList, 0⟩]⟩,
     ⟨"B".toList, [⟨2, "war2".toList, 0⟩]⟩]
    none (by decide) ⟨"Action".toList, 2, ["A".toList, "B".toList]⟩
    (by decide)
